import Mathlib

/-!
# Verification of the AchoDaka bank core

Shallow embedding of the account/ledger core of
`TempaGyeltshen_02240134_A3_PA.py`.

Modelling conventions:
* Monetary amounts (`balance`, operation arguments) are exact rationals
  (`ℚ`); the source stores Python floats, but all claims are about the
  validation/update algorithm, which we embed over exact arithmetic.
* A Python method that may `raise` is embedded as a function returning the
  raised error (if any) together with the post-state of the mutated
  object(s): `Option BankErr × Account`.  A `raise` exits the method
  before any subsequent assignment runs, so the post-state on the error
  paths is exactly what the object holds at the moment of the raise —
  including partial mutation when an earlier delegated call already
  committed (as in `transfer`).
* The ledger's `users` dict is an association list `List (String × Account)`
  with Python-dict insertion semantics (`dictInsert`).
* Error kinds follow the spec's taxonomy; the source distinguishes the
  same cases by exception class and message string.
-/

/-- Error kinds of the core (spec taxonomy §7; the source raises
`InputError` / `FundTransferError` with distinct messages). -/
inductive BankErr where
  | invalidAmount
  | insufficientFunds
  | transferFailed
  | invalidPhoneNumber
  | authenticationFailed
  | accountNotFound
  deriving DecidableEq, Repr

/-- `class Account`: number, pin, type tag and mutable balance
(`Account.__init__`). -/
structure Account where
  num : String
  pin : String
  type : String
  balance : ℚ
  deriving DecidableEq, Repr

/-- `Personal(number, pin, balance)`: account with type tag `"personal"`. -/
def Personal (number pin : String) (balance : ℚ) : Account :=
  ⟨number, pin, "personal", balance⟩

/-- `Business(number, pin, balance)`: account with type tag `"business"`. -/
def Business (number pin : String) (balance : ℚ) : Account :=
  ⟨number, pin, "business", balance⟩

/-- Python `str.isdigit()` (restricted to ASCII): nonempty and all
characters decimal digits. -/
def pyIsdigit (s : String) : Bool :=
  decide (s.length ≠ 0) && s.data.all Char.isDigit

namespace Account

/-- `Account.deposit`: raise `InputError` on `amount <= 0`, else
`self.balance += amount`. -/
def deposit (amount : ℚ) (self : Account) : Option BankErr × Account :=
  if amount ≤ 0 then (some .invalidAmount, self)
  else (none, { self with balance := self.balance + amount })

/-- `Account.withdraw`: raise `InputError` on `amount > self.balance`,
else `self.balance -= amount`. -/
def withdraw (amount : ℚ) (self : Account) : Option BankErr × Account :=
  if amount > self.balance then (some .insufficientFunds, self)
  else (none, { self with balance := self.balance - amount })

/-- `Account.transfer`: pre-check `amount > self.balance` raising
`FundTransferError`, then `self.withdraw(amount)`, then
`receiver.deposit(amount)`.  An error raised by a delegated call
propagates with whatever mutations already happened kept — in
particular the sender is already debited when the deposit raises. -/
def transfer (amount : ℚ) (self receiver : Account) :
    Option BankErr × Account × Account :=
  if amount > self.balance then (some .transferFailed, self, receiver)
  else
    match self.withdraw amount with
    | (some e, s') => (some e, s', receiver)
    | (none, s') =>
      match receiver.deposit amount with
      | (some e, r') => (some e, s', r')
      | (none, r') => (none, s', r')

/-- `Account.recharge`: raise `InputError` unless the phone number is
all digits and of length 10; raise `InputError` on
`amount > self.balance`; else `self.balance -= amount`. -/
def recharge (number : String) (amount : ℚ) (self : Account) :
    Option BankErr × Account :=
  if !pyIsdigit number || number.length ≠ 10 then
    (some .invalidPhoneNumber, self)
  else if amount > self.balance then (some .insufficientFunds, self)
  else (none, { self with balance := self.balance - amount })

end Account

/-- `BankCore.authenticate`: look the number up in `users`; return the
account if found with matching pin, else raise `InputError`
("Incorrect login details.") — the same exception in both failure
cases. -/
def authenticate (users : List (String × Account)) (num pin : String) :
    Except BankErr Account :=
  match users.lookup num with
  | some acc => if acc.pin = pin then .ok acc else .error .authenticationFailed
  | none => .error .authenticationFailed

/-- One call a session can make that touches a given account's balance:
its own deposit / withdraw / recharge, or a transfer in which it is the
sender (`tOut`) or the receiver (`tIn`). -/
inductive Op where
  | dep (a : ℚ)
  | wd (a : ℚ)
  | rc (ph : String) (a : ℚ)
  | tOut (a : ℚ) (other : Account)
  | tIn (a : ℚ) (other : Account)

/-- Post-state of the tracked account after one call, whether the call
succeeded or raised (a raised error is caught by the presentation layer
and the session continues with the state as mutated so far). -/
def applyOp (acct : Account) : Op → Account
  | .dep a => (acct.deposit a).2
  | .wd a => (acct.withdraw a).2
  | .rc ph a => (acct.recharge ph a).2
  | .tOut a other => (Account.transfer a acct other).2.1
  | .tIn a other => (Account.transfer a other acct).2.2

/-- Balance after a finite sequence of calls. -/
def runOps (acct : Account) (ops : List Op) : Account :=
  ops.foldl applyOp acct

/-! ## Store codec

`BankCore._save_data` / `BankCore._load_data`: one newline-terminated
record per account, fields comma-separated:
`f"{acc.num},{acc.pin},{acc.type},{acc.balance}"`.
The file content is modelled as a `List Char`. -/

/-- Split a character list at every occurrence of `sep` (the list-level
analogue of Python's `str.split(sep)`): one more group than there are
separators. -/
def splitOnChar (sep : Char) : List Char → List (List Char)
  | [] => [[]]
  | c :: rest =>
    match splitOnChar sep rest with
    | [] => [[c]]
    | g :: gs => if c = sep then [] :: g :: gs else (c :: g) :: gs

/-- Python `str.strip()`: remove leading and trailing whitespace. -/
def pyStrip (l : List Char) : List Char :=
  ((l.dropWhile Char.isWhitespace).reverse.dropWhile Char.isWhitespace).reverse

/-- Python file-line iteration (`for line in file`): the lines of the
text, where a trailing newline does not produce an extra empty line. -/
def pyLines (l : List Char) : List (List Char) :=
  let parts := splitOnChar '\n' l
  if parts.getLast? = some [] then parts.dropLast else parts

/-- Decimal digits of `n`, most significant first. -/
def natToChars (n : ℕ) : List Char :=
  if n = 0 then ['0']
  else ((Nat.digits 10 n).map (fun d => Char.ofNat (d + 48))).reverse

/-- Numeric value of a digit string, most significant first. -/
def charsToNat (l : List Char) : ℕ :=
  Nat.ofDigits 10 ((l.map fun c => c.toNat - 48).reverse)

/-- Exactly `k` decimal digits of `n < 10^k`, most significant first,
padded with leading zeros. -/
def fracPad (k n : ℕ) : List Char :=
  let ds := (Nat.digits 10 n).map (fun d => Char.ofNat (d + 48))
  (ds ++ List.replicate (k - ds.length) '0').reverse

/-- Least `k ≤ d` with `d ∣ 10 ^ k` (`0` when no such `k` exists in the
range; the printer is only used on denominators dividing a power of
ten, where the least such `k` is at most `d`). -/
def decExp (d : ℕ) : ℕ :=
  match (List.range (d + 1)).find? (fun k => 10 ^ k % d == 0) with
  | some k => k
  | none => 0

/-- Modelled from the source's f-string interpolation of a float:
Python prints the shortest decimal literal that parses back to the same
value, i.e. for a value that is exactly an integer `m` over `10^k` in
minimal decimal form: optional sign, integer part, `'.'`, `k` fraction
digits (`".0"` for integral values). -/
def pyFloatRepr (q : ℚ) : List Char :=
  let k := decExp q.den
  let m : ℤ := q.num * ((10 ^ k) / q.den : ℕ)
  let sign : List Char := if m < 0 then ['-'] else []
  let frac : List Char :=
    if k = 0 then ['0'] else fracPad k (m.natAbs % 10 ^ k)
  sign ++ natToChars (m.natAbs / 10 ^ k) ++ '.' :: frac

/-- Python `float(s)` on the grammar `digits [. digits]` (the fragment
float-repr output lives in); anything else is a parse error. -/
def parseUnsignedFloat (l : List Char) : Option ℚ :=
  match splitOnChar '.' l with
  | [a] =>
    if a ≠ [] ∧ a.all Char.isDigit then some (charsToNat a : ℚ) else none
  | [a, b] =>
    if (a ≠ [] ∨ b ≠ []) ∧ a.all Char.isDigit ∧ b.all Char.isDigit then
      some ((charsToNat a : ℚ) + (charsToNat b : ℚ) / 10 ^ b.length)
    else none
  | _ => none

/-- Python `float(s)`, adding the optional leading minus sign. -/
def parseFloat (l : List Char) : Option ℚ :=
  if l.head? = some '-' then (parseUnsignedFloat l.tail).map (fun q => -q)
  else parseUnsignedFloat l

/-- One record written by `BankCore._save_data`:
`f"{acc.num},{acc.pin},{acc.type},{acc.balance}"` (newline added by the
caller). -/
def serializeAccount (a : Account) : List Char :=
  a.num.data ++ ',' :: (a.pin.data ++ ',' :: (a.type.data ++ ',' :: pyFloatRepr a.balance))

/-- `BankCore._save_data`: every record, newline-terminated, in table
order. -/
def saveData (users : List (String × Account)) : List Char :=
  (users.map (fun p => serializeAccount p.2 ++ ['\n'])).flatten

/-- One line of `BankCore._load_data`:
`acc, pwd, typ, bal = line.strip().split(",")`, then
`cls = Personal if typ == "personal" else Business` and
`cls(acc, pwd, float(bal))`.  A wrong field count or an unparseable
balance is a crash (`none`). -/
def parseLine (l : List Char) : Option (String × Account) :=
  match splitOnChar ',' (pyStrip l) with
  | [acc, pwd, typ, bal] =>
    (parseFloat bal).map fun b =>
      (String.mk acc,
        if String.mk typ = "personal" then Personal (String.mk acc) (String.mk pwd) b
        else Business (String.mk acc) (String.mk pwd) b)
  | _ => none

/-- Python dict assignment `users[acc] = ...`: overwrite in place when
the key exists, else append. -/
def dictInsert (users : List (String × Account)) (k : String) (v : Account) :
    List (String × Account) :=
  if users.any (fun p => p.1 = k) then
    users.map (fun p => if p.1 = k then (k, v) else p)
  else users ++ [(k, v)]

/-- `BankCore._load_data` over the store content: parse each line in
order, inserting each parsed account into the table. -/
def loadData (content : List Char) : Option (List (String × Account)) :=
  (pyLines content).foldlM
    (fun users line => (parseLine line).map (fun p => dictInsert users p.1 p.2)) []

/-! ## Single-step facts about the account operations -/

theorem deposit_fst (amount : ℚ) (self : Account) :
    (self.deposit amount).1 = if amount ≤ 0 then some .invalidAmount else none := by
  unfold Account.deposit; split <;> rfl

theorem withdraw_fst (amount : ℚ) (self : Account) :
    (self.withdraw amount).1 =
      if amount > self.balance then some .insufficientFunds else none := by
  unfold Account.withdraw; split <;> rfl

/-- Closed form of `transfer`: the pre-check, then (since the inner
sufficiency check cannot fire after the pre-check passed) either the
deposit positivity check raises with the sender already debited, or both
legs commit. -/
theorem transfer_eq (amount : ℚ) (self receiver : Account) :
    Account.transfer amount self receiver =
      if amount > self.balance then (some .transferFailed, self, receiver)
      else if amount ≤ 0 then
        (some .invalidAmount,
          { self with balance := self.balance - amount }, receiver)
      else
        (none, { self with balance := self.balance - amount },
          { receiver with balance := receiver.balance + amount }) := by
  unfold Account.transfer Account.withdraw Account.deposit
  split_ifs <;> rfl

/-- Closed form of `recharge`: the format check (`isdigit` and length
10 — length 10 subsumes nonemptiness) is evaluated before the balance
check. -/
theorem recharge_eq (ph : String) (a : ℚ) (acct : Account) :
    acct.recharge ph a =
      if ph.length = 10 ∧ ph.data.all Char.isDigit then
        if acct.balance < a then (some .insufficientFunds, acct)
        else (none, { acct with balance := acct.balance - a })
      else (some .invalidPhoneNumber, acct) := by
  unfold Account.recharge pyIsdigit
  by_cases h10 : ph.length = 10
  · by_cases hd : ph.data.all Char.isDigit
    · simp [h10, hd, gt_iff_lt]
    · simp [h10, hd]
  · simp [h10]

theorem applyOp_nonneg (acct : Account) (op : Op)
    (h : 0 ≤ acct.balance) : 0 ≤ (applyOp acct op).balance := by
  cases op with
  | dep a =>
    simp only [applyOp, Account.deposit]
    split_ifs <;> simp <;> linarith
  | wd a =>
    simp only [applyOp, Account.withdraw]
    split_ifs <;> simp <;> linarith
  | rc ph a =>
    simp only [applyOp, Account.recharge]
    split_ifs <;> simp <;> linarith
  | tOut a other =>
    simp only [applyOp, transfer_eq]
    split_ifs <;> simp <;> linarith
  | tIn a other =>
    simp only [applyOp, transfer_eq]
    split_ifs <;> simp <;> linarith

/-! ## Claims -/

/-- C1 counterexample: a transfer of a negative amount passes the
`amount > balance` pre-check, debits the sender (increasing its balance
by the amount's magnitude) and only then raises inside the delegated
deposit — the failing call has mutated the sender. -/
theorem C1_counterexample :
    (Account.transfer (-5) (Personal "11111" "1111" 10)
        (Business "22222" "2222" 0)).1.isSome = true
    ∧ (Account.transfer (-5) (Personal "11111" "1111" 10)
        (Business "22222" "2222" 0)).2.1.balance = 15 := by
  constructor <;> · rw [transfer_eq]; norm_num [Personal, Business]

/-- C1 (amended): deposit, withdraw and recharge are all-or-nothing
unconditionally, and transfer is all-or-nothing for non-negative
amounts — on every such failing call all involved balances are exactly
what they were before the call. -/
theorem C1_all_or_nothing :
    (∀ (a : ℚ) (acct : Account),
        (acct.deposit a).1.isSome → (acct.deposit a).2 = acct)
  ∧ (∀ (a : ℚ) (acct : Account),
        (acct.withdraw a).1.isSome → (acct.withdraw a).2 = acct)
  ∧ (∀ (ph : String) (a : ℚ) (acct : Account),
        (acct.recharge ph a).1.isSome → (acct.recharge ph a).2 = acct)
  ∧ (∀ (a : ℚ) (s r : Account), 0 ≤ a →
        (Account.transfer a s r).1.isSome →
        (Account.transfer a s r).2.1 = s ∧ (Account.transfer a s r).2.2 = r) := by
  refine ⟨?_, ?_, ?_, ?_⟩
  · intro a acct h
    unfold Account.deposit at *
    split_ifs at * <;> simp_all
  · intro a acct h
    unfold Account.withdraw at *
    split_ifs at * <;> simp_all
  · intro ph a acct h
    rw [recharge_eq] at *
    split_ifs at * <;> simp_all
  · intro a s r ha h
    rw [transfer_eq] at *
    split_ifs at * with h1 h2
    · exact ⟨rfl, rfl⟩
    · have haz : a = 0 := le_antisymm h2 ha
      subst haz
      exact ⟨by simp, rfl⟩
    · simp at h

/-- C1 witness. -/
theorem C1_all_or_nothing_witness :
    (Account.transfer 7 (Personal "11111" "1111" 5)
        (Business "22222" "2222" 0)).2.1 = Personal "11111" "1111" 5 :=
  (C1_all_or_nothing.2.2.2 7 (Personal "11111" "1111" 5)
      (Business "22222" "2222" 0) (by norm_num)
      (by rw [transfer_eq]; norm_num [Personal, Business])).1

/-- C2: an account starting with a non-negative balance keeps a
non-negative balance after any finite sequence of deposit, withdraw,
recharge and transfer calls (as sender or receiver), each either
succeeding or failing. -/
theorem C2_balance_nonneg (acct : Account) (ops : List Op)
    (h : 0 ≤ acct.balance) : 0 ≤ (runOps acct ops).balance := by
  induction ops generalizing acct with
  | nil => simpa [runOps] using h
  | cons op rest ih =>
    rw [runOps, List.foldl_cons]
    exact ih _ (applyOp_nonneg acct op h)

/-- C2 witness. -/
theorem C2_balance_nonneg_witness :
    0 ≤ (runOps (Personal "11111" "1111" 3)
        [Op.dep 5, Op.wd 100, Op.tOut 2 (Business "22222" "2222" 0),
         Op.rc "1234567890" 1, Op.tIn 4 (Business "22222" "2222" 9)]).balance :=
  C2_balance_nonneg _ _ (by norm_num [Personal])

/-- C3: withdraw fails with `InsufficientFunds` iff the amount exceeds
the balance at call time; on failure the account is unchanged, on
success the balance decreases by exactly the amount. -/
theorem C3_withdraw_spec (a : ℚ) (acct : Account) :
    ((acct.withdraw a).1 = some BankErr.insufficientFunds ↔ acct.balance < a)
  ∧ (acct.balance < a → (acct.withdraw a).2 = acct)
  ∧ (a ≤ acct.balance →
      (acct.withdraw a).1 = none ∧ (acct.withdraw a).2.balance = acct.balance - a) := by
  unfold Account.withdraw
  split_ifs with h
  · exact ⟨by simp [h], fun _ => rfl, fun h' => absurd h' (by simpa using h)⟩
  · refine ⟨by simpa using h, fun h' => absurd h' (by simpa using h), fun _ => ⟨rfl, rfl⟩⟩

/-- C3 witness. -/
theorem C3_withdraw_spec_witness :
    (Account.withdraw 10000 (Business "22222" "2222" 700)).1
        = some BankErr.insufficientFunds
  ∧ (Account.withdraw 10000 (Business "22222" "2222" 700)).2
        = Business "22222" "2222" 700
  ∧ (Account.withdraw 300 (Business "22222" "2222" 500)).2.balance = 500 - 300 :=
  ⟨(C3_withdraw_spec 10000 _).1.mpr (by norm_num [Business]),
   (C3_withdraw_spec 10000 _).2.1 (by norm_num [Business]),
   ((C3_withdraw_spec 300 _).2.2 (by norm_num [Business])).2⟩

/-- C4: a successful transfer debits the sender by the amount, credits
the receiver by the same amount and conserves the sum of the two
balances; a transfer of more than the sender's balance fails with
`TransferFailed` leaving both accounts unchanged. -/
theorem C4_transfer_spec (a : ℚ) (s r : Account) :
    (∀ s' r', Account.transfer a s r = (none, s', r') →
        s'.balance = s.balance - a ∧ r'.balance = r.balance + a ∧
        s'.balance + r'.balance = s.balance + r.balance)
  ∧ (s.balance < a →
      Account.transfer a s r = (some BankErr.transferFailed, s, r)) := by
  rw [transfer_eq]
  constructor
  · intro s' r' hEq
    split_ifs at hEq with h1 h2
    · simp at hEq
    · simp at hEq
    · injection hEq with h0 hEq'
      injection hEq' with hs hr
      subst hs; subst hr
      refine ⟨rfl, rfl, ?_⟩
      show s.balance - a + (r.balance + a) = s.balance + r.balance
      ring
  · intro h
    rw [if_pos (show a > s.balance from h)]

/-- C4 witness. -/
theorem C4_transfer_spec_witness :
    ((Business "22222" "2222" 700) : Account).balance
        = (Business "22222" "2222" 500).balance + 200
  ∧ Account.transfer 2000 (Personal "11111" "1111" 1000) (Business "22222" "2222" 500)
      = (some BankErr.transferFailed,
          Personal "11111" "1111" 1000, Business "22222" "2222" 500) :=
  ⟨((C4_transfer_spec 200 (Personal "11111" "1111" 1000)
        (Business "22222" "2222" 500)).1
      (Personal "11111" "1111" 800) (Business "22222" "2222" 700)
      (by rw [transfer_eq]; norm_num [Personal, Business])).2.1,
   (C4_transfer_spec 2000 _ _).2 (by norm_num [Personal])⟩

/-- C5: authenticate returns the stored account iff the number is a key
of the table and the stored pin exactly equals the supplied pin; an
unknown number and a known number with a wrong pin both fail with the
very same `AuthenticationFailed` error value — indistinguishable to the
caller. -/
theorem C5_authenticate_spec (users : List (String × Account)) (num pin : String) :
    (∀ a, authenticate users num pin = Except.ok a ↔
        users.lookup num = some a ∧ a.pin = pin)
  ∧ (users.lookup num = none →
      authenticate users num pin = Except.error BankErr.authenticationFailed)
  ∧ (∀ a, users.lookup num = some a → a.pin ≠ pin →
      authenticate users num pin = Except.error BankErr.authenticationFailed) := by
  unfold authenticate
  refine ⟨?_, ?_, ?_⟩
  · intro a
    cases h : users.lookup num with
    | none => simp [h]
    | some b =>
      simp only [h, Option.some.injEq]
      split_ifs with hp
      · constructor
        · intro he
          injection he with hba
          subst hba
          exact ⟨rfl, hp⟩
        · rintro ⟨rfl, -⟩
          rfl
      · constructor
        · intro he; cases he
        · rintro ⟨rfl, hpa⟩
          exact absurd hpa hp
  · intro h; rw [h]
  · intro a h hp
    rw [h]
    exact if_neg hp

/-- C5 witness. -/
theorem C5_authenticate_spec_witness :
    authenticate [("11111", Personal "11111" "1111" 1000),
        ("22222", Business "22222" "2222" 500)] "22222" "2222"
      = Except.ok (Business "22222" "2222" 500)
  ∧ authenticate [("11111", Personal "11111" "1111" 1000),
        ("22222", Business "22222" "2222" 500)] "33333" "1234"
      = Except.error BankErr.authenticationFailed
  ∧ authenticate [("11111", Personal "11111" "1111" 1000),
        ("22222", Business "22222" "2222" 500)] "22222" "0000"
      = Except.error BankErr.authenticationFailed :=
  ⟨((C5_authenticate_spec _ "22222" "2222").1 _).mpr ⟨by rfl, rfl⟩,
   (C5_authenticate_spec _ "33333" "1234").2.1 (by rfl),
   (C5_authenticate_spec _ "22222" "0000").2.2 (Business "22222" "2222" 500)
     (by rfl) (by simp [Business])⟩

/-- C6: recharge fails with `InvalidPhoneNumber` whenever the phone
number is not exactly 10 digit characters, regardless of amount or
balance; when the format check passes it fails with `InsufficientFunds`
exactly when the amount exceeds the balance, and on success decreases
the balance by exactly the amount. -/
theorem C6_recharge_spec (ph : String) (a : ℚ) (acct : Account) :
    (¬(ph.length = 10 ∧ ∀ c ∈ ph.data, c.isDigit) →
        acct.recharge ph a = (some BankErr.invalidPhoneNumber, acct))
  ∧ ((ph.length = 10 ∧ ∀ c ∈ ph.data, c.isDigit) →
      ((acct.recharge ph a).1 = some BankErr.insufficientFunds ↔ acct.balance < a)
      ∧ (acct.balance < a → (acct.recharge ph a).2 = acct)
      ∧ (a ≤ acct.balance →
          acct.recharge ph a = (none, { acct with balance := acct.balance - a }))) := by
  rw [recharge_eq]
  have hfmt : (ph.length = 10 ∧ ph.data.all Char.isDigit = true)
      ↔ (ph.length = 10 ∧ ∀ c ∈ ph.data, c.isDigit = true) := by
    simp [List.all_eq_true]
  constructor
  · intro h
    rw [if_neg (fun hc => h (hfmt.mp hc))]
  · intro h
    rw [if_pos (hfmt.mpr h)]
    split_ifs with hlt
    · exact ⟨by simp [hlt], fun _ => rfl, fun h' => absurd hlt (not_lt.mpr h')⟩
    · exact ⟨by simpa using hlt, fun h' => absurd h' hlt, fun _ => rfl⟩

/-- C6 witness. -/
theorem C6_recharge_spec_witness :
    Account.recharge "123" 50 (Personal "11111" "1111" 700)
      = (some BankErr.invalidPhoneNumber, Personal "11111" "1111" 700)
  ∧ (Account.recharge "1234567890" 10000 (Business "22222" "2222" 500)).1
      = some BankErr.insufficientFunds
  ∧ Account.recharge "1234567890" 100 (Personal "11111" "1111" 1000)
      = (none, { Personal "11111" "1111" 1000 with balance := 1000 - 100 }) :=
  ⟨(C6_recharge_spec "123" 50 _).1 (by decide),
   ((C6_recharge_spec "1234567890" 10000 _).2 (by constructor <;> decide)).1.mpr
     (by norm_num [Business]),
   ((C6_recharge_spec "1234567890" 100 _).2 (by constructor <;> decide)).2.2
     (by norm_num [Personal])⟩

/-- C8: for a positive amount and an account satisfying the data-model
invariant `balance ≥ 0`, deposit of the amount succeeds, the following
withdraw of the same amount succeeds, and the balance is restored
exactly. -/
theorem C8_deposit_withdraw (a : ℚ) (acct : Account)
    (ha : 0 < a) (hb : 0 ≤ acct.balance) :
    (acct.deposit a).1 = none
  ∧ ((acct.deposit a).2.withdraw a).1 = none
  ∧ ((acct.deposit a).2.withdraw a).2.balance = acct.balance := by
  have h1 : ¬ a ≤ 0 := not_le.mpr ha
  have h2 : ¬ a > acct.balance + a := by push_neg; linarith
  unfold Account.deposit Account.withdraw
  rw [if_neg h1]
  dsimp only
  rw [if_neg h2]
  refine ⟨rfl, rfl, ?_⟩
  show acct.balance + a - a = acct.balance
  ring

/-- C8 witness. -/
theorem C8_deposit_withdraw_witness :
    ((Personal "11111" "1111" 1000).deposit 500).1 = none
  ∧ (((Personal "11111" "1111" 1000).deposit 500).2.withdraw 500).1 = none
  ∧ (((Personal "11111" "1111" 1000).deposit 500).2.withdraw 500).2.balance
      = (Personal "11111" "1111" 1000).balance :=
  C8_deposit_withdraw 500 _ (by norm_num) (by norm_num [Personal])

/-- C9 counterexample: recharge, exactly like withdraw, omits the
positivity check — a recharge of a negative amount to a well-formed
phone number succeeds and increases the balance, contradicting the
claim that recharge does not accept a non-positive amount without
error. -/
theorem C9_counterexample :
    (Account.recharge "1234567890" (-50) (Personal "11111" "1111" 100)).1 = none
  ∧ (Account.recharge "1234567890" (-50) (Personal "11111" "1111" 100)).2.balance
      = 150 := by
  have hfmt : ("1234567890" : String).length = 10
      ∧ ("1234567890" : String).data.all Char.isDigit = true := by decide
  have hlt : ¬(Personal "11111" "1111" 100).balance < -50 := by norm_num [Personal]
  constructor
  · rw [recharge_eq, if_pos hfmt, if_neg hlt]
  · rw [recharge_eq, if_pos hfmt, if_neg hlt]
    show (Personal "11111" "1111" 100).balance - (-50) = 150
    norm_num [Personal]

/-- C9 (amended): withdraw and recharge both omit a positivity check on
the amount — each, called with a non-positive amount not exceeding the
balance, succeeds and moves the balance to `balance - amount` (a strict
increase for a negative amount) — while transfer rejects every
non-positive amount with an error. -/
theorem C9_positivity_asymmetry :
    (∀ (a : ℚ) (acct : Account), a ≤ 0 → a ≤ acct.balance →
        (acct.withdraw a).1 = none ∧ (acct.withdraw a).2.balance = acct.balance - a)
  ∧ (∀ (ph : String) (a : ℚ) (acct : Account),
        ph.length = 10 → (∀ c ∈ ph.data, c.isDigit) → a ≤ 0 → a ≤ acct.balance →
        (acct.recharge ph a).1 = none
        ∧ (acct.recharge ph a).2.balance = acct.balance - a)
  ∧ (∀ (a : ℚ) (s r : Account), a ≤ 0 → (Account.transfer a s r).1 ≠ none) := by
  refine ⟨?_, ?_, ?_⟩
  · intro a acct _ hle
    unfold Account.withdraw
    rw [if_neg (not_lt.mpr hle)]
    exact ⟨rfl, rfl⟩
  · intro ph a acct h10 hd _ hle
    rw [recharge_eq, if_pos ⟨h10, List.all_eq_true.mpr (by simpa using hd)⟩,
      if_neg (not_lt.mpr hle)]
    exact ⟨rfl, rfl⟩
  · intro a s r ha
    rw [transfer_eq]
    by_cases h1 : a > s.balance
    · rw [if_pos h1]; simp
    · rw [if_neg h1, if_pos ha]; simp

/-- C9 witness. -/
theorem C9_positivity_asymmetry_witness :
    ((Personal "11111" "1111" 10).withdraw (-5)).1 = none
  ∧ ((Personal "11111" "1111" 10).recharge "1234567890" (-5)).1 = none
  ∧ (Account.transfer (-5) (Personal "11111" "1111" 10)
        (Business "22222" "2222" 0)).1 ≠ none :=
  ⟨(C9_positivity_asymmetry.1 (-5) _ (by norm_num) (by norm_num [Personal])).1,
   (C9_positivity_asymmetry.2.1 "1234567890" (-5) _ (by decide) (by decide)
      (by norm_num) (by norm_num [Personal])).1,
   C9_positivity_asymmetry.2.2 (-5) _ _ (by norm_num)⟩

/-! ## Codec lemmas -/

theorem splitOnChar_ne_nil (sep : Char) (l : List Char) : splitOnChar sep l ≠ [] := by
  cases l with
  | nil => simp [splitOnChar]
  | cons c rest =>
    simp only [splitOnChar]
    cases splitOnChar sep rest with
    | nil => simp
    | cons g gs =>
      show ¬(if c = sep then [] :: g :: gs else (c :: g) :: gs) = []
      split <;> simp

theorem splitOnChar_of_not_mem {sep : Char} {l : List Char} (h : sep ∉ l) :
    splitOnChar sep l = [l] := by
  induction l with
  | nil => rfl
  | cons c rest ih =>
    have hc : c ≠ sep := fun hcs => h (hcs ▸ List.mem_cons_self c rest)
    have hrest : sep ∉ rest := fun hm => h (List.mem_cons_of_mem c hm)
    simp only [splitOnChar]
    rw [ih hrest]
    simp [hc]

theorem splitOnChar_append (sep : Char) (a b : List Char) (h : sep ∉ a) :
    splitOnChar sep (a ++ sep :: b) = a :: splitOnChar sep b := by
  induction a with
  | nil =>
    simp only [List.nil_append, splitOnChar]
    cases hb : splitOnChar sep b with
    | nil => exact absurd hb (splitOnChar_ne_nil sep b)
    | cons g gs => simp
  | cons c a' ih =>
    have hc : c ≠ sep := fun hcs => h (hcs ▸ List.mem_cons_self c a')
    have ha' : sep ∉ a' := fun hm => h (List.mem_cons_of_mem c hm)
    show (match splitOnChar sep (a' ++ sep :: b) with
      | [] => [[c]]
      | g :: gs => if c = sep then [] :: g :: gs else (c :: g) :: gs)
        = (c :: a') :: splitOnChar sep b
    rw [ih ha']
    show (if c = sep then [] :: a' :: splitOnChar sep b
        else (c :: a') :: splitOnChar sep b) = (c :: a') :: splitOnChar sep b
    rw [if_neg hc]

theorem dropWhile_eq_self_of {α : Type} {p : α → Bool} {l : List α}
    (h : ∀ c ∈ l, p c = false) : l.dropWhile p = l := by
  cases l with
  | nil => rfl
  | cons a t =>
    rw [List.dropWhile_cons]
    simp [h a (List.mem_cons_self a t)]

theorem pyStrip_eq_self {l : List Char} (h : ∀ c ∈ l, c.isWhitespace = false) :
    pyStrip l = l := by
  unfold pyStrip
  rw [dropWhile_eq_self_of h,
    dropWhile_eq_self_of (fun c hc => h c (List.mem_reverse.mp hc)),
    List.reverse_reverse]

theorem digitChar_toNat {d : ℕ} (hd : d < 10) : (Char.ofNat (d + 48)).toNat - 48 = d := by
  interval_cases d <;> decide

theorem digitChar_isDigit {d : ℕ} (hd : d < 10) : (Char.ofNat (d + 48)).isDigit = true := by
  interval_cases d <;> decide

theorem isDigit_props {c : Char} (h : c.isDigit = true) :
    c ≠ ',' ∧ c ≠ '\n' ∧ c ≠ '.' ∧ c ≠ '-' ∧ c.isWhitespace = false := by
  refine ⟨?_, ?_, ?_, ?_, ?_⟩
  · rintro rfl; exact absurd h (by decide)
  · rintro rfl; exact absurd h (by decide)
  · rintro rfl; exact absurd h (by decide)
  · rintro rfl; exact absurd h (by decide)
  · by_contra hw
    rw [Bool.not_eq_false] at hw
    unfold Char.isWhitespace at hw
    simp only [Bool.or_eq_true, decide_eq_true_eq] at hw
    rcases hw with ((rfl | rfl) | rfl) | rfl <;> exact absurd h (by decide)

theorem natToChars_ne_nil (n : ℕ) : natToChars n ≠ [] := by
  unfold natToChars
  split
  · simp
  · simpa using Nat.digits_ne_nil_iff_ne_zero.mpr (by assumption)

theorem natToChars_digits (n : ℕ) : ∀ c ∈ natToChars n, c.isDigit = true := by
  intro c hc
  unfold natToChars at hc
  split at hc
  · simp at hc; subst hc; decide
  · simp only [List.mem_reverse, List.mem_map] at hc
    obtain ⟨d, hd, rfl⟩ := hc
    exact digitChar_isDigit (Nat.digits_lt_base (by norm_num) hd)

theorem fracPad_digits (k n : ℕ) : ∀ c ∈ fracPad k n, c.isDigit = true := by
  intro c hc
  unfold fracPad at hc
  simp only [List.mem_reverse, List.mem_append, List.mem_map,
    List.mem_replicate] at hc
  rcases hc with ⟨d, hd, rfl⟩ | ⟨-, rfl⟩
  · exact digitChar_isDigit (Nat.digits_lt_base (by norm_num) hd)
  · decide

theorem digits_len_le_of_lt {n k : ℕ} (h : n < 10 ^ k) :
    (Nat.digits 10 n).length ≤ k := by
  rcases Nat.eq_zero_or_pos n with rfl | hn
  · simp
  by_contra hlen
  push_neg at hlen
  have h1 : 10 ^ (Nat.digits 10 n).length ≤ 10 * n :=
    Nat.base_pow_length_digits_le 10 n (by norm_num) hn.ne'
  have h2 : 10 ^ (k + 1) ≤ 10 ^ (Nat.digits 10 n).length :=
    Nat.pow_le_pow_right (by norm_num) hlen
  have h3 : 10 * 10 ^ k ≤ 10 * n := by
    calc 10 * 10 ^ k = 10 ^ (k + 1) := by ring
    _ ≤ 10 ^ (Nat.digits 10 n).length := h2
    _ ≤ 10 * n := h1
  have h4 : 10 ^ k ≤ n := Nat.le_of_mul_le_mul_left h3 (by norm_num)
  omega

theorem fracPad_length {k n : ℕ} (h : n < 10 ^ k) : (fracPad k n).length = k := by
  have hlen : ((Nat.digits 10 n).map (fun d => Char.ofNat (d + 48))).length ≤ k := by
    simpa using digits_len_le_of_lt h
  unfold fracPad
  simp only [List.length_reverse, List.length_append, List.length_replicate]
  omega

theorem ofDigits_replicate_zero (m : ℕ) :
    Nat.ofDigits 10 (List.replicate m 0) = 0 := by
  induction m with
  | zero => rfl
  | succ m ih => simp [List.replicate_succ, Nat.ofDigits_cons, ih]

theorem charsToNat_natToChars (n : ℕ) : charsToNat (natToChars n) = n := by
  unfold natToChars charsToNat
  split
  · subst n; decide
  · rw [List.map_reverse, List.reverse_reverse, List.map_map]
    have h1 : List.map ((fun c => c.toNat - 48) ∘ fun d => Char.ofNat (d + 48))
        (Nat.digits 10 n) = Nat.digits 10 n := by
      trans (Nat.digits 10 n).map id
      · exact List.map_congr_left
          (fun d hd => digitChar_toNat (Nat.digits_lt_base (by norm_num) hd))
      · exact List.map_id _
    rw [h1]
    exact Nat.ofDigits_digits 10 n

theorem charsToNat_fracPad {k n : ℕ} :
    charsToNat (fracPad k n) = n := by
  unfold fracPad charsToNat
  rw [List.map_reverse, List.reverse_reverse, List.map_append, List.map_map]
  have h1 : List.map ((fun c => c.toNat - 48) ∘ fun d => Char.ofNat (d + 48))
      (Nat.digits 10 n) = Nat.digits 10 n := by
    trans (Nat.digits 10 n).map id
    · exact List.map_congr_left
        (fun d hd => digitChar_toNat (Nat.digits_lt_base (by norm_num) hd))
    · exact List.map_id _
  rw [h1, List.map_replicate]
  rw [show (('0').toNat - 48) = 0 from rfl]
  rw [Nat.ofDigits_append, Nat.ofDigits_digits, ofDigits_replicate_zero]
  simp

theorem decExp_dvd {d : ℕ} (h : ∃ k, k ≤ d ∧ d ∣ 10 ^ k) :
    d ∣ 10 ^ decExp d := by
  obtain ⟨k0, hk0, hdvd⟩ := h
  unfold decExp
  cases hfind : (List.range (d + 1)).find? (fun k => 10 ^ k % d == 0) with
  | some k =>
    have hk := List.find?_some hfind
    simp only [beq_iff_eq] at hk
    exact Nat.dvd_of_mod_eq_zero hk
  | none =>
    exfalso
    have hnone := List.find?_eq_none.mp hfind k0 (List.mem_range.mpr (by omega))
    simp only [beq_iff_eq] at hnone
    exact hnone (Nat.mod_eq_zero_of_dvd hdvd)

theorem parseUnsignedFloat_digits (A B : List Char) (hA : A ≠ [])
    (hAd : ∀ c ∈ A, c.isDigit = true) (hBd : ∀ c ∈ B, c.isDigit = true) :
    parseUnsignedFloat (A ++ '.' :: B)
      = some ((charsToNat A : ℚ) + (charsToNat B : ℚ) / 10 ^ B.length) := by
  have hdotA : '.' ∉ A := fun hm => ((isDigit_props (hAd _ hm)).2.2.1) rfl
  have hdotB : '.' ∉ B := fun hm => ((isDigit_props (hBd _ hm)).2.2.1) rfl
  unfold parseUnsignedFloat
  rw [splitOnChar_append '.' A B hdotA, splitOnChar_of_not_mem hdotB]
  show (if (A ≠ [] ∨ B ≠ []) ∧ A.all Char.isDigit = true ∧ B.all Char.isDigit = true
      then some ((charsToNat A : ℚ) + (charsToNat B : ℚ) / 10 ^ B.length)
      else none) = _
  rw [if_pos ⟨Or.inl hA, List.all_eq_true.mpr hAd, List.all_eq_true.mpr hBd⟩]

theorem parseFloat_pyFloatRepr (q : ℚ)
    (h : ∃ k, k ≤ q.den ∧ q.den ∣ 10 ^ k) :
    parseFloat (pyFloatRepr q) = some q := by
  have hden0 : q.den ≠ 0 := q.den_nz
  have hdvd : q.den ∣ 10 ^ decExp q.den := decExp_dvd h
  set k := decExp q.den with hk
  set M := 10 ^ k / q.den with hMdef
  have hMden : M * q.den = 10 ^ k := Nat.div_mul_cancel hdvd
  have hM0 : M ≠ 0 := by
    intro h0
    rw [h0, zero_mul] at hMden
    exact (pow_ne_zero k (by norm_num : (10:ℕ) ≠ 0)) hMden.symm
  set m : ℤ := q.num * M with hmdef
  set N := m.natAbs with hNdef
  set F : List Char := if k = 0 then ['0'] else fracPad k (N % 10 ^ k) with hFdef
  have hpow0 : (0:ℕ) < 10 ^ k := by positivity
  have hfrac_lt : N % 10 ^ k < 10 ^ k := Nat.mod_lt _ hpow0
  -- the printed text, by definition
  have hrepr : pyFloatRepr q
      = (if m < 0 then ['-'] else []) ++ natToChars (N / 10 ^ k) ++ '.' :: F := rfl
  -- digit shape of the fraction block
  have hFd : ∀ c ∈ F, c.isDigit = true := by
    rw [hFdef]
    split
    · intro c hc; simp at hc; subst hc; decide
    · exact fracPad_digits _ _
  -- value carried by the fraction block
  have hFval : (charsToNat F : ℚ) / (10:ℚ) ^ F.length
      = ((N % 10 ^ k : ℕ) : ℚ) / (10:ℚ) ^ k := by
    rw [hFdef]
    split
    · rename_i hk0
      rw [hk0, show charsToNat ['0'] = 0 from rfl]
      simp [Nat.mod_one]
    · rename_i hk0
      rw [charsToNat_fracPad, fracPad_length hfrac_lt]
  -- the combined integer-plus-fraction value
  have hval : ((N / 10 ^ k : ℕ) : ℚ) + ((N % 10 ^ k : ℕ) : ℚ) / ((10:ℚ) ^ k)
      = (N : ℚ) / (10:ℚ) ^ k := by
    have hsplit := Nat.div_add_mod N (10 ^ k)
    have hcast := congrArg (Nat.cast : ℕ → ℚ) hsplit
    push_cast at hcast
    have h10 : ((10:ℚ) ^ k) ≠ 0 := by positivity
    field_simp
    linarith [hcast]
  -- the rational is exactly m / 10^k
  have hq : (m : ℚ) / ((10:ℚ) ^ k) = q := by
    have hden : ((q.den : ℚ)) ≠ 0 := Nat.cast_ne_zero.mpr hden0
    have hMq : ((M : ℚ)) ≠ 0 := Nat.cast_ne_zero.mpr hM0
    have hnum : (q.num : ℚ) = q * q.den := by
      have h3 := congrArg (fun x : ℚ => x * (q.den : ℚ)) (Rat.num_div_den q)
      simp only at h3
      rw [div_mul_cancel₀ _ hden] at h3
      exact h3
    rw [hmdef]
    push_cast
    rw [show ((10:ℚ) ^ k) = (M : ℚ) * (q.den : ℚ) by exact_mod_cast hMden.symm]
    rw [div_eq_iff (mul_ne_zero hMq hden), hnum]
    ring
  rcases lt_or_ge m 0 with hneg | hpos
  · -- negative: leading minus sign
    rw [hrepr, if_pos hneg]
    show parseFloat ('-' :: (natToChars (N / 10 ^ k) ++ '.' :: F)) = some q
    unfold parseFloat
    rw [if_pos (by rw [List.head?_cons])]
    rw [List.tail_cons]
    rw [parseUnsignedFloat_digits _ _ (natToChars_ne_nil _) (natToChars_digits _) hFd,
      charsToNat_natToChars]
    have hVal2 : (((N / 10 ^ k : ℕ) : ℚ) + (charsToNat F : ℚ) / 10 ^ F.length)
        = (N : ℚ) / (10:ℚ) ^ k := by rw [hFval]; exact hval
    have hNcast : (N : ℚ) = -(m : ℚ) := by
      have h1 : (N : ℤ) = -m := by
        rw [hNdef]
        exact Int.ofNat_natAbs_of_nonpos (le_of_lt hneg)
      exact_mod_cast h1
    rw [Option.map_some', hVal2, hNcast,
      show -(-(m:ℚ) / (10:ℚ) ^ k) = (m:ℚ) / (10:ℚ) ^ k by ring, hq]
  · -- non-negative: no sign, first character a digit
    rw [hrepr, if_neg (not_lt.mpr hpos), List.nil_append]
    obtain ⟨c, t, hct⟩ : ∃ c t, natToChars (N / 10 ^ k) = c :: t := by
      cases hnc : natToChars (N / 10 ^ k) with
      | nil => exact absurd hnc (natToChars_ne_nil _)
      | cons c t => exact ⟨c, t, rfl⟩
    have hcd : c.isDigit = true :=
      natToChars_digits _ c (by rw [hct]; exact List.mem_cons_self c t)
    have hcne : c ≠ '-' := (isDigit_props hcd).2.2.2.1
    unfold parseFloat
    rw [hct, List.cons_append, List.head?_cons,
      if_neg (fun hh => hcne (Option.some.inj hh)),
      ← List.cons_append, ← hct]
    rw [parseUnsignedFloat_digits _ _ (natToChars_ne_nil _) (natToChars_digits _) hFd,
      charsToNat_natToChars]
    have hNcast : (N : ℚ) = (m : ℚ) := by
      have h1 : (N : ℤ) = m := by
        rw [hNdef]
        exact Int.natAbs_of_nonneg hpos
      exact_mod_cast h1
    rw [hFval, hval, hNcast, hq]

theorem pyFloatRepr_chars (q : ℚ) :
    ∀ c ∈ pyFloatRepr q, c ≠ ',' ∧ c ≠ '\n' ∧ c.isWhitespace = false := by
  intro c hc
  set k := decExp q.den with hk
  set m : ℤ := q.num * ((10 ^ k) / q.den : ℕ) with hm
  set N := m.natAbs with hN
  have hre : pyFloatRepr q = (if m < 0 then ['-'] else [])
      ++ natToChars (N / 10 ^ k)
      ++ '.' :: (if k = 0 then ['0'] else fracPad k (N % 10 ^ k)) := rfl
  rw [hre] at hc
  rcases List.mem_append.mp hc with h1 | h1
  · rcases List.mem_append.mp h1 with h2 | h2
    · by_cases hm0 : m < 0
      · rw [if_pos hm0] at h2
        rw [List.mem_singleton.mp h2]; decide
      · rw [if_neg hm0] at h2
        simp at h2
    · have := isDigit_props (natToChars_digits _ c h2)
      exact ⟨this.1, this.2.1, this.2.2.2.2⟩
  · rcases List.mem_cons.mp h1 with h3 | h3
    · rw [h3]; decide
    · by_cases hk0 : k = 0
      · rw [if_pos hk0] at h3
        rw [List.mem_singleton.mp h3]; decide
      · rw [if_neg hk0] at h3
        have := isDigit_props (fracPad_digits _ _ c h3)
        exact ⟨this.1, this.2.1, this.2.2.2.2⟩

theorem parseLine_serializeAccount (a : Account)
    (hnum : ∀ c ∈ a.num.data, c.isDigit = true)
    (hpin : ∀ c ∈ a.pin.data, c.isDigit = true)
    (htype : a.type = "personal" ∨ a.type = "business")
    (hbal : ∃ k, k ≤ a.balance.den ∧ a.balance.den ∣ 10 ^ k) :
    parseLine (serializeAccount a) = some (a.num, a) := by
  have htypechars : ∀ c ∈ a.type.data, c ≠ ',' ∧ c ≠ '\n' ∧ c.isWhitespace = false := by
    rcases htype with ht | ht <;> rw [ht] <;> decide
  have hmem : ∀ c ∈ serializeAccount a,
      c ∈ a.num.data ∨ c = ',' ∨ c ∈ a.pin.data ∨ c ∈ a.type.data
        ∨ c ∈ pyFloatRepr a.balance := by
    intro c hc
    unfold serializeAccount at hc
    rcases List.mem_append.mp hc with h1 | h1
    · exact Or.inl h1
    rcases List.mem_cons.mp h1 with h2 | h2
    · exact Or.inr (Or.inl h2)
    rcases List.mem_append.mp h2 with h3 | h3
    · exact Or.inr (Or.inr (Or.inl h3))
    rcases List.mem_cons.mp h3 with h4 | h4
    · exact Or.inr (Or.inl h4)
    rcases List.mem_append.mp h4 with h5 | h5
    · exact Or.inr (Or.inr (Or.inr (Or.inl h5)))
    rcases List.mem_cons.mp h5 with h6 | h6
    · exact Or.inr (Or.inl h6)
    · exact Or.inr (Or.inr (Or.inr (Or.inr h6)))
  have hstrip : pyStrip (serializeAccount a) = serializeAccount a := by
    apply pyStrip_eq_self
    intro c hc
    rcases hmem c hc with h | h | h | h | h
    · exact (isDigit_props (hnum c h)).2.2.2.2
    · rw [h]; decide
    · exact (isDigit_props (hpin c h)).2.2.2.2
    · exact (htypechars c h).2.2
    · exact (pyFloatRepr_chars _ c h).2.2
  have hnc1 : ',' ∉ a.num.data := fun hm => (isDigit_props (hnum _ hm)).1 rfl
  have hnc2 : ',' ∉ a.pin.data := fun hm => (isDigit_props (hpin _ hm)).1 rfl
  have hnc3 : ',' ∉ a.type.data := fun hm => (htypechars _ hm).1 rfl
  have hnc4 : ',' ∉ pyFloatRepr a.balance := fun hm => (pyFloatRepr_chars _ _ hm).1 rfl
  have hsplit : splitOnChar ',' (serializeAccount a)
      = [a.num.data, a.pin.data, a.type.data, pyFloatRepr a.balance] := by
    unfold serializeAccount
    rw [splitOnChar_append ',' _ _ hnc1, splitOnChar_append ',' _ _ hnc2,
      splitOnChar_append ',' _ _ hnc3, splitOnChar_of_not_mem hnc4]
  unfold parseLine
  rw [hstrip, hsplit]
  show (parseFloat (pyFloatRepr a.balance)).map _ = _
  rw [parseFloat_pyFloatRepr _ hbal, Option.map_some']
  rw [show String.mk a.num.data = a.num from rfl,
    show String.mk a.pin.data = a.pin from rfl,
    show String.mk a.type.data = a.type from rfl]
  rcases htype with ht | ht
  · rw [if_pos ht]
    show some (a.num, (⟨a.num, a.pin, "personal", a.balance⟩ : Account)) = _
    rw [← ht]
  · rw [if_neg (by rw [ht]; decide)]
    show some (a.num, (⟨a.num, a.pin, "business", a.balance⟩ : Account)) = _
    rw [← ht]

theorem splitOnChar_flatten_newline (lines : List (List Char))
    (h : ∀ l ∈ lines, '\n' ∉ l) :
    splitOnChar '\n' ((lines.map (· ++ ['\n'])).flatten) = lines ++ [[]] := by
  induction lines with
  | nil => rfl
  | cons a t ih =>
    rw [List.map_cons, List.flatten_cons, List.append_assoc, List.singleton_append,
      splitOnChar_append '\n' a _ (h a (List.mem_cons_self a t)),
      ih (fun l hl => h l (List.mem_cons_of_mem a hl))]
    rfl

theorem pyLines_saveData (users : List (String × Account))
    (h : ∀ p ∈ users, '\n' ∉ serializeAccount p.2) :
    pyLines (saveData users) = users.map (fun p => serializeAccount p.2) := by
  simp only [pyLines, saveData]
  rw [show (users.map (fun p => serializeAccount p.2 ++ ['\n']))
      = ((users.map (fun p => serializeAccount p.2)).map (· ++ ['\n'])) by
    rw [List.map_map]; rfl]
  rw [splitOnChar_flatten_newline _ (fun l hl => by
    obtain ⟨p, hp, rfl⟩ := List.mem_map.mp hl
    exact h p hp)]
  rw [List.getLast?_concat, if_pos rfl, List.dropLast_concat]

theorem dictInsert_fresh (users : List (String × Account)) (k : String) (v : Account)
    (h : ∀ q ∈ users, q.1 ≠ k) : dictInsert users k v = users ++ [(k, v)] := by
  unfold dictInsert
  rw [if_neg]
  intro hany
  obtain ⟨p, hp, hpk⟩ := List.any_eq_true.mp hany
  exact h p hp (of_decide_eq_true hpk)

theorem loadData_fold (l : List (String × Account)) (init : List (String × Account)) :
    (∀ p ∈ l, parseLine (serializeAccount p.2) = some (p.1, p.2)) →
    (∀ p ∈ l, ∀ q ∈ init, q.1 ≠ p.1) →
    (l.map Prod.fst).Nodup →
    (l.map (fun p => serializeAccount p.2)).foldlM
      (fun users line => (parseLine line).map (fun p => dictInsert users p.1 p.2)) init
      = some (init ++ l) := by
  induction l generalizing init with
  | nil => intro _ _ _; simp
  | cons p t ih =>
    intro hp hfresh hnd
    have hnd2 : (p.1 :: t.map Prod.fst).Nodup := by simpa using hnd
    have hnd' := List.nodup_cons.mp hnd2
    rw [List.map_cons, List.foldlM_cons, hp p (List.mem_cons_self p t)]
    simp only [Option.map_some']
    rw [dictInsert_fresh init p.1 p.2
      (fun q hq => hfresh p (List.mem_cons_self p t) q hq)]
    rw [show ((p.1, p.2) : String × Account) = p from rfl]
    have hbind : ∀ (x : List (String × Account))
        (F : List (String × Account) → Option (List (String × Account))),
        (some x >>= F) = F x := fun _ _ => rfl
    rw [hbind]
    have hfresh' : ∀ x ∈ t, ∀ q ∈ init ++ [p], q.1 ≠ x.1 := by
      intro x hx q hq
      rcases List.mem_append.mp hq with hq | hq
      · exact hfresh x (List.mem_cons_of_mem p hx) q hq
      · rw [List.mem_singleton.mp hq]
        exact fun heq => hnd'.1 (heq ▸ List.mem_map_of_mem Prod.fst hx)
    rw [ih (init ++ [p]) (fun x hx => hp x (List.mem_cons_of_mem p hx)) hfresh' hnd'.2]
    rw [List.append_assoc, List.singleton_append]

theorem csvLine_mem (f1 f2 f3 f4 : List Char) :
    ∀ c ∈ f1 ++ ',' :: (f2 ++ ',' :: (f3 ++ ',' :: f4)),
      c ∈ f1 ∨ c = ',' ∨ c ∈ f2 ∨ c ∈ f3 ∨ c ∈ f4 := by
  intro c hc
  rcases List.mem_append.mp hc with h1 | h1
  · exact Or.inl h1
  rcases List.mem_cons.mp h1 with h2 | h2
  · exact Or.inr (Or.inl h2)
  rcases List.mem_append.mp h2 with h3 | h3
  · exact Or.inr (Or.inr (Or.inl h3))
  rcases List.mem_cons.mp h3 with h4 | h4
  · exact Or.inr (Or.inl h4)
  rcases List.mem_append.mp h4 with h5 | h5
  · exact Or.inr (Or.inr (Or.inr (Or.inl h5)))
  rcases List.mem_cons.mp h5 with h6 | h6
  · exact Or.inr (Or.inl h6)
  · exact Or.inr (Or.inr (Or.inr (Or.inr h6)))

theorem splitOnChar_csvLine (f1 f2 f3 f4 : List Char)
    (h1 : ',' ∉ f1) (h2 : ',' ∉ f2) (h3 : ',' ∉ f3) (h4 : ',' ∉ f4) :
    splitOnChar ',' (f1 ++ ',' :: (f2 ++ ',' :: (f3 ++ ',' :: f4)))
      = [f1, f2, f3, f4] := by
  rw [splitOnChar_append ',' _ _ h1, splitOnChar_append ',' _ _ h2,
    splitOnChar_append ',' _ _ h3, splitOnChar_of_not_mem h4]

/-- C7: saving a table of valid records (keys equal to the account
numbers, numbers and pins digit strings, kind one of the two tokens,
balance a decimal value, keys distinct) and loading it back reproduces
the table exactly. -/
theorem C7_save_load_roundtrip (users : List (String × Account))
    (hkey : ∀ p ∈ users, p.1 = p.2.num)
    (hnum : ∀ p ∈ users, ∀ c ∈ p.2.num.data, c.isDigit = true)
    (hpin : ∀ p ∈ users, ∀ c ∈ p.2.pin.data, c.isDigit = true)
    (htype : ∀ p ∈ users, p.2.type = "personal" ∨ p.2.type = "business")
    (hbal : ∀ p ∈ users, ∃ k, k ≤ p.2.balance.den ∧ p.2.balance.den ∣ 10 ^ k)
    (hnd : (users.map Prod.fst).Nodup) :
    loadData (saveData users) = some users := by
  have hline : ∀ p ∈ users, parseLine (serializeAccount p.2) = some (p.1, p.2) := by
    intro p hp
    rw [parseLine_serializeAccount p.2 (hnum p hp) (hpin p hp) (htype p hp) (hbal p hp),
      ← hkey p hp]
  have hnl : ∀ p ∈ users, '\n' ∉ serializeAccount p.2 := by
    intro p hp hmem
    rcases csvLine_mem p.2.num.data p.2.pin.data p.2.type.data
        (pyFloatRepr p.2.balance) '\n' hmem with h | h | h | h | h
    · exact (isDigit_props (hnum p hp _ h)).2.1 rfl
    · exact absurd h (by decide)
    · exact (isDigit_props (hpin p hp _ h)).2.1 rfl
    · rcases htype p hp with ht | ht <;> rw [ht] at h <;> exact absurd h (by decide)
    · exact (pyFloatRepr_chars _ _ h).2.1 rfl
  unfold loadData
  rw [pyLines_saveData users hnl]
  rw [loadData_fold users [] hline
    (fun p _ q hq => absurd hq (List.not_mem_nil q)) hnd]
  rw [List.nil_append]

/-- C7 witness. -/
theorem C7_save_load_roundtrip_witness :
    loadData (saveData [("11111", Personal "11111" "1111" 1000),
        ("22222", Business "22222" "2222" 500)])
      = some [("11111", Personal "11111" "1111" 1000),
          ("22222", Business "22222" "2222" 500)] :=
  C7_save_load_roundtrip _
    (by intro p hp
        simp only [List.mem_cons, List.not_mem_nil, or_false] at hp
        rcases hp with rfl | rfl <;> rfl)
    (by intro p hp
        simp only [List.mem_cons, List.not_mem_nil, or_false] at hp
        rcases hp with rfl | rfl <;> decide)
    (by intro p hp
        simp only [List.mem_cons, List.not_mem_nil, or_false] at hp
        rcases hp with rfl | rfl <;> decide)
    (by intro p hp
        simp only [List.mem_cons, List.not_mem_nil, or_false] at hp
        rcases hp with rfl | rfl
        · exact Or.inl rfl
        · exact Or.inr rfl)
    (by intro p hp
        simp only [List.mem_cons, List.not_mem_nil, or_false] at hp
        rcases hp with rfl | rfl <;>
          exact ⟨0, Nat.zero_le _, by norm_num [Personal, Business]⟩)
    (by decide)

/-- C10: a parsed record whose kind token is the literal `personal`
yields a Personal account; every other kind token (any token at all)
yields a Business account, with no parse error. -/
theorem C10_loader_kind (accD pwdD typD balD : List Char) (b : ℚ)
    (hacc : ∀ c ∈ accD, c.isDigit = true)
    (hpwd : ∀ c ∈ pwdD, c.isDigit = true)
    (htypD : ∀ c ∈ typD, c ≠ ',' ∧ c ≠ '\n' ∧ c.isWhitespace = false)
    (hbalD : ∀ c ∈ balD, c ≠ ',' ∧ c ≠ '\n' ∧ c.isWhitespace = false)
    (hparse : parseFloat balD = some b) :
    ∃ acct, parseLine (accD ++ ',' :: (pwdD ++ ',' :: (typD ++ ',' :: balD)))
        = some (String.mk accD, acct)
      ∧ (String.mk typD = "personal" →
          acct = Personal (String.mk accD) (String.mk pwdD) b)
      ∧ (String.mk typD ≠ "personal" →
          acct = Business (String.mk accD) (String.mk pwdD) b) := by
  have hstrip : pyStrip (accD ++ ',' :: (pwdD ++ ',' :: (typD ++ ',' :: balD)))
      = accD ++ ',' :: (pwdD ++ ',' :: (typD ++ ',' :: balD)) := by
    apply pyStrip_eq_self
    intro c hc
    rcases csvLine_mem accD pwdD typD balD c hc with h | h | h | h | h
    · exact (isDigit_props (hacc c h)).2.2.2.2
    · rw [h]; decide
    · exact (isDigit_props (hpwd c h)).2.2.2.2
    · exact (htypD c h).2.2
    · exact (hbalD c h).2.2
  refine ⟨if String.mk typD = "personal"
      then Personal (String.mk accD) (String.mk pwdD) b
      else Business (String.mk accD) (String.mk pwdD) b, ?_, ?_, ?_⟩
  · unfold parseLine
    rw [hstrip, splitOnChar_csvLine accD pwdD typD balD
        (fun hm => (isDigit_props (hacc _ hm)).1 rfl)
        (fun hm => (isDigit_props (hpwd _ hm)).1 rfl)
        (fun hm => (htypD _ hm).1 rfl)
        (fun hm => (hbalD _ hm).1 rfl)]
    show (parseFloat balD).map _ = _
    rw [hparse, Option.map_some']
  · intro ht; rw [if_pos ht]
  · intro ht; rw [if_neg ht]

/-- C10 witness: an unrecognized kind token (`vip`) loads as a Business
account without a parse error. -/
theorem C10_loader_kind_witness :
    parseLine "123,45,vip,7.0".data = some ("123", Business "123" "45" 7) := by
  have hparse70 : parseFloat "7.0".data = some (7 : ℚ) := by
    have h1 : parseFloat (['7'] ++ '.' :: ['0'])
        = some ((charsToNat ['7'] : ℚ)
            + (charsToNat ['0'] : ℚ) / 10 ^ (['0'] : List Char).length) := by
      unfold parseFloat
      rw [if_neg (by decide)]
      exact parseUnsignedFloat_digits ['7'] ['0'] (by decide) (by decide) (by decide)
    rw [show "7.0".data = ['7'] ++ '.' :: ['0'] from rfl, h1,
      show charsToNat ['7'] = 7 from by decide,
      show charsToNat ['0'] = 0 from by decide]
    norm_num
  obtain ⟨acct, heq, -, hbiz⟩ := C10_loader_kind "123".data "45".data "vip".data
    "7.0".data 7 (by decide) (by decide) (by decide) (by decide) hparse70
  rw [hbiz (by decide)] at heq
  rw [show "123,45,vip,7.0".data
      = "123".data ++ ',' :: ("45".data ++ ',' :: ("vip".data ++ ',' :: "7.0".data))
    from rfl]
  exact heq
